import Mathlib

/-!
Formal model of the skidmarks randomness-test library (skidmarks.py).

The four analysis functions of the library are embedded as Lean functions
over lists.  Python float arithmetic is modelled exactly: intermediate
statistics are rationals, square roots and the normal CDF live in the reals,
and every Python operation that can raise (float division by zero, a failed
assert, max of an empty list, indexing an empty sequence) is modelled by an
Except value carrying the corresponding error message.  The external scipy
and numpy collaborators (zprob, chisquare p-value, linregress, corrcoef) are
modelled from their documented contracts: zprob is the one-sided standard
normal CDF, corrcoef the Pearson correlation coefficient, and the chi-square
and regression p-values are abstract parameters since no verified claim
constrains their values.
-/

namespace Skidmarks

variable {α : Type*} [DecidableEq α]

/-- Run-length grouping, the model of itertools.groupby with the identity
key function: a list of (value, length of the maximal run) pairs, in order. -/
def runLengths : List α → List (α × ℕ)
  | [] => []
  | [a] => [(a, 1)]
  | a :: b :: rest =>
    if a = b then
      match runLengths (b :: rest) with
      | [] => [(a, 1)]
      | (c, k) :: t => (c, k + 1) :: t
    else (a, 1) :: runLengths (b :: rest)

/-- The number of maximal runs written the way the specification describes
it: one run for a nonempty sequence plus one for every adjacent unequal
pair.  This is the reference definition the model run count is compared
against. -/
def specRunCount (l : List α) : ℕ :=
  match l with
  | [] => 0
  | _ :: _ => 1 + (l.zip l.tail).countP fun g => decide (g.1 ≠ g.2)

/-- Message of a Python ZeroDivisionError on float division. -/
def zeroDivMsg : String := "float division by zero"

/-- Message standing for the failed internal assert of wald_wolfowitz. -/
def assertMsgWW : String := "AssertionError"

/-- Message of a Python ValueError from math.sqrt of a negative number. -/
def mathDomainMsg : String := "math domain error"

/-- The domain-error message the specification asks for; it appears nowhere
in the source code. -/
def specDomainMsg : String := "sequence must contain both values, length >= 2"

/-- The expected number of runs, ER = 2nm/(n+m) + 1, as the source computes
it from the counts n and m. -/
def ER (n m : ℕ) : ℚ := 2 * n * m / ((n : ℚ) + m) + 1

/-- The expected variance of the number of runs,
VR = 2nm(2nm - n - m) / ((n+m)^2 (n+m-1)), as the source computes it. -/
def VR (n m : ℕ) : ℚ :=
  2 * n * m * (2 * (n : ℚ) * m - n - m) / (((n : ℚ) + m) ^ 2 * ((n : ℚ) + m - 1))

/-- The cross-check quantity O = (ER - 1)(ER - 2)/(n + m - 1) of the source. -/
def wwO (n m : ℕ) : ℚ := (ER n m - 1) * (ER n m - 2) / ((n : ℚ) + m - 1)

/-- Model of scipy.stats.zprob, the external collaborator producing the
p-value: the one-sided standard normal CDF, the probability that a standard
normal variable is at most z. -/
noncomputable def zprob (z : ℝ) : ℝ :=
  1 / 2 + (∫ t in (0 : ℝ)..z, Real.exp (-(t ^ 2) / 2)) / Real.sqrt (2 * Real.pi)

/-- Result record of wald_wolfowitz. -/
structure WWResult where
  n_runs : ℕ
  mean : ℚ
  sd : ℝ
  z : ℝ
  p : ℝ

/-- The count n of the source: elements equal to the first element. -/
def wwN (l : List α) (s0 : α) : ℕ := l.countP fun s => decide (s = s0)

/-- The count m of the source: elements different from the first element. -/
def wwM (l : List α) (s0 : α) : ℕ := l.countP fun s => decide (¬ s = s0)

/-- Body of wald_wolfowitz for a nonempty sequence with first element s0.
Every Python float division is guarded by the exact rational test for a zero
denominator (the second guard covers both the VR and the O division, whose
denominators vanish together), the assert is the literal one-sided test of
the source (VR - O < 0.001), math.sqrt of a negative argument is a
ValueError, and VR = 0 makes the Z division a ZeroDivisionError. -/
noncomputable def wwCompute (l : List α) (s0 : α) : Except String WWResult :=
  if ((wwN l s0 : ℚ) + wwM l s0) = 0 then .error zeroDivMsg
  else if (((wwN l s0 : ℚ) + wwM l s0) ^ 2 * ((wwN l s0 : ℚ) + wwM l s0 - 1)) = 0 then
    .error zeroDivMsg
  else if ¬ (VR (wwN l s0) (wwM l s0) - wwO (wwN l s0) (wwM l s0) < 1 / 1000) then
    .error assertMsgWW
  else if VR (wwN l s0) (wwM l s0) < 0 then .error mathDomainMsg
  else if VR (wwN l s0) (wwM l s0) = 0 then .error zeroDivMsg
  else
    .ok { n_runs := (runLengths l).length,
          mean := ER (wwN l s0) (wwM l s0),
          sd := Real.sqrt ((VR (wwN l s0) (wwM l s0) : ℚ) : ℝ),
          z := (((runLengths l).length : ℝ) - ((ER (wwN l s0) (wwM l s0) : ℚ) : ℝ))
                 / Real.sqrt ((VR (wwN l s0) (wwM l s0) : ℚ) : ℝ),
          p := zprob ((((runLengths l).length : ℝ) - ((ER (wwN l s0) (wwM l s0) : ℚ) : ℝ))
                 / Real.sqrt ((VR (wwN l s0) (wwM l s0) : ℚ) : ℝ)) }

/-- Model of wald_wolfowitz.  On the empty sequence the two generator sums
give n = m = 0.0 and the computation of ER raises ZeroDivisionError. -/
noncomputable def wald_wolfowitz : List α → Except String WWResult
  | [] => .error zeroDivMsg
  | l@(s0 :: _) => wwCompute l s0

/-- Result record of gap_test: the chi-square statistic, the p-value
produced by the external chisquare collaborator, and the tested item. -/
structure GapResult (α : Type*) where
  chi : ℚ
  p : ℝ
  item : α

/-- Message of the failed assert of gap_test (the source formats the item
into the message with %s; the constant prefix is modelled). -/
def gapAssertMsg : String := "must have some values of item"

/-- Message of the Python ValueError from max() on an empty list. -/
def emptyMaxMsg : String := "max() arg is an empty sequence"

/-- Message of the Python IndexError from indexing an empty sequence. -/
def indexErrMsg : String := "string index out of range"

/-- The 0/1 indicator list of the source: 1 where the element equals item. -/
def indicatorList (sequence : List α) (item : α) : List ℕ :=
  sequence.map fun s => if s = item then 1 else 0

/-- The observed gap lengths: lengths of the maximal groupby runs of the
indicator whose group value is not 1. -/
def observedGaps (sequence : List α) (item : α) : List ℕ :=
  ((runLengths (indicatorList sequence item)).filter fun g => decide (¬ g.1 = 1)).map
    Prod.snd

/-- The observed-gap histogram of the source: for each i in
range(max(10, max(observed_gaps))) the count of gaps of exactly length i.
The fold with seed 0 agrees with the Python max on every nonempty list of
naturals; the empty case is guarded before this list is built. -/
def ogapsHist (sequence : List α) (item : α) : List ℕ :=
  (List.range (max 10 ((observedGaps sequence item).foldl max 0))).map fun i =>
    (observedGaps sequence item).count i

/-- The expected counts of the source: l * p^ii for ii in
range(1, len(ogaps) + 1), with p the empirical item frequency. -/
def egapsList (sequence : List α) (item : α) : List ℚ :=
  (List.range' 1 (ogapsHist sequence item).length).map fun ii =>
    (sequence.length : ℚ)
      * (((indicatorList sequence item).sum : ℚ) / (sequence.length : ℚ)) ^ ii

/-- The chi-square statistic of scipy.stats.chisquare: the sum of
(observed - expected)^2 / expected over the paired entries. -/
def chiSquareStat (obs expcts : List ℚ) : ℚ :=
  ((obs.zip expcts).map fun oe => (oe.1 - oe.2) ^ 2 / oe.2).sum

/-- The chi-square statistic gap_test hands to chisquare. -/
def gapChi (sequence : List α) (item : α) : ℚ :=
  chiSquareStat (List.map (fun c : ℕ => (c : ℚ)) (ogapsHist sequence item))
    (egapsList sequence item)

/-- Body of gap_test once the item is resolved.  The assert of the source
is the first guard; the max() of an empty gap list (unreachable once the
assert passes) is the second. -/
def gapTestWithItem (pval : ℚ → ℕ → ℝ) (sequence : List α) (item : α) :
    Except String (GapResult α) :=
  if 0 < (indicatorList sequence item).sum ∧
      (indicatorList sequence item).sum < sequence.length then
    if observedGaps sequence item = [] then .error emptyMaxMsg
    else
      .ok { chi := gapChi sequence item,
            p := pval (gapChi sequence item) (ogapsHist sequence item).length,
            item := item }
  else .error gapAssertMsg

/-- Resolution of the optional item argument: the source replaces None by
sequence[0], an IndexError on the empty sequence. -/
def resolveItem (sequence : List α) (item? : Option α) : Option α :=
  match item?, sequence with
  | some a, _ => some a
  | none, s0 :: _ => some s0
  | none, [] => none

/-- Model of gap_test with its optional item parameter. -/
def gap_test (pval : ℚ → ℕ → ℝ) (sequence : List α) (item? : Option α) :
    Except String (GapResult α) :=
  match item?, sequence with
  | some it, _ => gapTestWithItem pval sequence it
  | none, s0 :: rest => gapTestWithItem pval (s0 :: rest) s0
  | none, [] => .error indexErrMsg

/-- The doctest input 101010111101000 as a list of characters. -/
def gapSample : List Char :=
  ['1', '0', '1', '0', '1', '0', '1', '1', '1', '1', '0', '1', '0', '0', '0']

/-- Result record of serial_test. -/
structure SerialResult where
  chi : ℚ
  p : ℝ

/-- The digram list of the source: izip(sequence[1:], sequence[:-1]). -/
def pairwiseDigrams (sequence : List α) : List (α × α) :=
  (sequence.drop 1).zip sequence.dropLast

/-- The defaultdict digram counter of the source: each distinct digram
paired with its number of occurrences.  The iteration order of the dict is
irrelevant (the source notes that order does not matter because the
expected counts are all equal), so the distinct keys are listed by dedup. -/
def digramCounts (sequence : List α) : List ((α × α) × ℕ) :=
  (pairwiseDigrams sequence).dedup.map fun k => (k, (pairwiseDigrams sequence).count k)

/-- The observed count vector handed to chisquare. -/
def serialObs (sequence : List α) : List ℚ :=
  List.map (fun kc : (α × α) × ℕ => (kc.2 : ℚ)) (digramCounts sequence)

/-- The numpy mean of the observed counts, the expected count of every
digram class. -/
def serialMean (sequence : List α) : ℚ :=
  (serialObs sequence).sum / (serialObs sequence).length

/-- The chi-square statistic serial_test hands to chisquare. -/
def serialChi (sequence : List α) : ℚ :=
  chiSquareStat (serialObs sequence) ((serialObs sequence).map fun _ => serialMean sequence)

/-- Model of serial_test.  No operation of the source body can raise (the
dict counting, the numpy mean - which merely warns and yields nan on an
empty array - and chisquare all return), so the result is always ok; the
Except shape records the absence of any failure channel. -/
def serial_test (pval : ℚ → ℕ → ℝ) (sequence : List α) : Except String SerialResult :=
  .ok { chi := serialChi sequence,
        p := pval (serialChi sequence) (serialObs sequence).length }

/-- The digram list the way the specification describes it: the pairs
(sequence[i+1], sequence[i]) for i = 0..n-2, written with a default value
for the out-of-range reads that never occur. -/
def specDigrams (l : List α) (d : α) : List (α × α) :=
  (List.range (l.length - 1)).map fun i => (l.getD (i + 1) d, l.getD i d)

/-- The doctest input 101010101111000 as a list of characters. -/
def serialSample : List Char :=
  ['1', '0', '1', '0', '1', '0', '1', '0', '1', '1', '1', '1', '0', '0', '0']

/-- Result record of auto_correlation; rsquared models the dict key
r-squared. -/
structure ACResult where
  slope : ℝ
  intercept : ℝ
  rsquared : ℝ
  p : ℝ
  see : ℝ
  auto_correlation : ℝ

/-- The numpy mean of an integer column, as a rational. -/
def colMean (x : List ℤ) : ℚ :=
  (List.map (fun v : ℤ => (v : ℚ)) x).sum / x.length

/-- The centered product sum of the two lag columns seq[1:] and seq[:-1],
the off-diagonal entry of the numpy covariance matrix up to the shared
1/(n-1) factor. -/
def covSum (l : List ℤ) : ℚ :=
  (((l.drop 1).zip l.dropLast).map fun v =>
    ((v.1 : ℚ) - colMean (l.drop 1)) * ((v.2 : ℚ) - colMean l.dropLast)).sum

/-- The centered square sum of one column. -/
def varSum (x : List ℤ) : ℚ :=
  (List.map (fun v : ℤ => ((v : ℚ) - colMean x) ^ 2) x).sum

/-- Model of np.corrcoef(dseq, rowvar=0)[0][1]: the Pearson correlation
coefficient of the two lag columns in covariance form; the 1/(n-1) factors
of the covariance matrix cancel between numerator and denominator. -/
noncomputable def corrcoefLag (l : List ℤ) : ℝ :=
  ((covSum l : ℚ) : ℝ)
    / Real.sqrt (((varSum (l.drop 1) * varSum l.dropLast : ℚ) : ℝ))

/-- Model of auto_correlation.  The scipy linregress collaborator is a
parameter returning slope, intercept, r, the two-sided p-value and the
standard error; the source squares r for the r-squared field. -/
noncomputable def auto_correlation
    (linreg : List ℤ → List ℤ → ℝ × ℝ × ℝ × ℝ × ℝ) (l : List ℤ) : ACResult :=
  { slope := (linreg (l.drop 1) l.dropLast).1,
    intercept := (linreg (l.drop 1) l.dropLast).2.1,
    rsquared := (linreg (l.drop 1) l.dropLast).2.2.1 ^ 2,
    p := (linreg (l.drop 1) l.dropLast).2.2.2.1,
    see := (linreg (l.drop 1) l.dropLast).2.2.2.2,
    auto_correlation := corrcoefLag l }

/-- The Pearson correlation coefficient between two equally long columns in
the computational form of the specification:
(n sum(xy) - sum(x) sum(y)) / sqrt((n sum(x^2) - sum(x)^2)(n sum(y^2) - sum(y)^2)). -/
noncomputable def specPearson (x y : List ℤ) : ℝ :=
  ((((x.length : ℚ) * ((x.zip y).map fun v => (v.1 : ℚ) * v.2).sum
      - (List.map (fun v : ℤ => (v : ℚ)) x).sum
        * (List.map (fun v : ℤ => (v : ℚ)) y).sum : ℚ)) : ℝ)
    / Real.sqrt ((((x.length : ℚ) * (List.map (fun v : ℤ => ((v : ℚ) ^ 2)) x).sum
          - ((List.map (fun v : ℤ => (v : ℚ)) x).sum) ^ 2)
        * ((x.length : ℚ) * (List.map (fun v : ℤ => ((v : ℚ) ^ 2)) y).sum
          - ((List.map (fun v : ℤ => (v : ℚ)) y).sum) ^ 2) : ℚ) : ℝ)

/-- The doctest input 00000001111111111100000000 as a list of integers. -/
def acSample : List ℤ :=
  [0, 0, 0, 0, 0, 0, 0, 1, 1, 1, 1, 1, 1, 1, 1, 1, 1, 1, 0, 0, 0, 0, 0, 0, 0, 0]

/-! ### Theorems -/

theorem runLengths_cons_eq (xs : List α) :
    ∀ a : α, ∃ k t, runLengths (a :: xs) = (a, k) :: t ∧ 1 ≤ k := by
  induction xs with
  | nil => intro a; exact ⟨1, [], rfl, le_refl 1⟩
  | cons b rest ih =>
    intro a
    obtain ⟨k, t, hbt, hk⟩ := ih b
    by_cases hab : a = b
    · subst hab
      refine ⟨k + 1, t, ?_, Nat.le_succ_of_le hk⟩
      simp [runLengths, hbt]
    · exact ⟨1, runLengths (b :: rest), by simp [runLengths, hab], le_refl 1⟩

theorem runLengths_snd_pos {l : List α} :
    ∀ g ∈ runLengths l, 1 ≤ g.2 := by
  induction l with
  | nil => intro g hg; simp [runLengths] at hg
  | cons a xs ih =>
    intro g hg
    cases xs with
    | nil =>
      simp [runLengths] at hg
      simp [hg]
    | cons b rest =>
      obtain ⟨k, t, hbt, hk⟩ := runLengths_cons_eq rest b
      by_cases hab : a = b
      · rw [runLengths, if_pos hab, hbt] at hg
        rcases List.mem_cons.1 hg with h | h
        · simp [h]
        · exact ih g (by rw [hbt]; exact List.mem_cons_of_mem _ h)
      · rw [runLengths, if_neg hab] at hg
        rcases List.mem_cons.1 hg with h | h
        · simp [h]
        · exact ih g h

theorem exists_run_of_mem {l : List α} {x : α} (hx : x ∈ l) :
    ∃ g ∈ runLengths l, g.1 = x := by
  induction l with
  | nil => simp at hx
  | cons a xs ih =>
    cases xs with
    | nil =>
      simp at hx
      exact ⟨(a, 1), by simp [runLengths], by simp [hx]⟩
    | cons b rest =>
      obtain ⟨k, t, hbt, _⟩ := runLengths_cons_eq rest b
      rcases List.mem_cons.1 hx with h | h
      · subst h
        obtain ⟨k', t', h', _⟩ := runLengths_cons_eq (b :: rest) x
        exact ⟨(x, k'), by rw [h']; exact List.mem_cons_self _ _, rfl⟩
      · obtain ⟨g, hg, hgx⟩ := ih h
        by_cases hab : a = b
        · rw [hbt] at hg
          rcases List.mem_cons.1 hg with h2 | h2
          · refine ⟨(b, k + 1), ?_, ?_⟩
            · rw [runLengths, if_pos hab, hbt]
              exact List.mem_cons_self _ _
            · rw [h2] at hgx; exact hgx
          · refine ⟨g, ?_, hgx⟩
            rw [runLengths, if_pos hab, hbt]
            exact List.mem_cons_of_mem _ h2
        · refine ⟨g, ?_, hgx⟩
          rw [runLengths, if_neg hab]
          exact List.mem_cons_of_mem _ hg

theorem length_runLengths (l : List α) :
    (runLengths l).length = specRunCount l := by
  induction l with
  | nil => rfl
  | cons a xs ih =>
    cases xs with
    | nil => rfl
    | cons b rest =>
      obtain ⟨k, t, hbt, _⟩ := runLengths_cons_eq rest b
      have hzip : (a :: b :: rest).zip (a :: b :: rest).tail
          = (a, b) :: ((b :: rest).zip rest) := by simp
      by_cases hab : a = b
      · rw [runLengths, if_pos hab, hbt]
        have : (runLengths (b :: rest)).length = specRunCount (b :: rest) := ih
        rw [hbt] at this
        simp only [specRunCount, hzip, List.countP_cons]
        simp only [specRunCount] at this
        simp only [List.length_cons] at this ⊢
        have hz : (b :: rest).tail = rest := rfl
        rw [hz] at this
        simp [hab] at this ⊢
        omega
      · rw [runLengths, if_neg hab]
        have : (runLengths (b :: rest)).length = specRunCount (b :: rest) := ih
        simp only [specRunCount, hzip, List.countP_cons]
        simp only [specRunCount] at this
        have hz : (b :: rest).tail = rest := rfl
        rw [hz] at this
        simp only [List.length_cons] at this ⊢
        simp [hab] at this ⊢
        omega

/-! ### Wald-Wolfowitz runs test -/

theorem VR_eq_wwO {n m : ℕ} (hn : 1 ≤ n) (hm : 1 ≤ m) :
    VR n m = wwO n m := by
  have hn' : (1 : ℚ) ≤ (n : ℚ) := by exact_mod_cast hn
  have hm' : (1 : ℚ) ≤ (m : ℚ) := by exact_mod_cast hm
  have h1 : (n : ℚ) + m ≠ 0 := by nlinarith
  have h2 : (n : ℚ) + m - 1 ≠ 0 := by nlinarith
  unfold VR wwO ER
  field_simp
  ring

theorem wwN_pos (s0 : α) (rest : List α) : 1 ≤ wwN (s0 :: rest) s0 := by
  simp [wwN, List.countP_cons]

theorem wwN_add_wwM (l : List α) (s0 : α) : wwN l s0 + wwM l s0 = l.length := by
  induction l with
  | nil => rfl
  | cons a t ih =>
    by_cases h : a = s0 <;> simp [wwN, wwM, List.countP_cons, h] at ih ⊢ <;> omega

/-- C7: for every pair of class counts with n, m >= 1 (a sequence of length
at least 2 in which both values occur) the identity
VR = (ER - 1)(ER - 2)/(n + m - 1) holds exactly in rational arithmetic, the
quantity compared by the assert is 0 < 0.001, and consequently
wald_wolfowitz never fails with the assertion error on a sequence whose
first value does not exhaust it. -/
theorem c7_vr_identity :
    (∀ n m : ℕ, 1 ≤ n → 1 ≤ m →
      VR n m = (ER n m - 1) * (ER n m - 2) / ((n : ℚ) + m - 1) ∧
      VR n m - (ER n m - 1) * (ER n m - 2) / ((n : ℚ) + m - 1) < 1 / 1000) ∧
    (∀ (s0 : Char) (rest : List Char), 1 ≤ wwM (s0 :: rest) s0 →
      wald_wolfowitz (s0 :: rest) ≠ .error assertMsgWW) := by
  constructor
  · intro n m hn hm
    have h := VR_eq_wwO hn hm
    unfold wwO at h
    refine ⟨h, ?_⟩
    rw [h]
    norm_num
  · intro s0 rest hm
    have hn : 1 ≤ wwN (s0 :: rest) s0 := wwN_pos s0 rest
    have hid : VR (wwN (s0 :: rest) s0) (wwM (s0 :: rest) s0)
        - wwO (wwN (s0 :: rest) s0) (wwM (s0 :: rest) s0) < 1 / 1000 := by
      rw [VR_eq_wwO hn hm]
      norm_num
    show wwCompute (s0 :: rest) s0 ≠ .error assertMsgWW
    unfold wwCompute
    split_ifs with h1 h2 h3 h4 h5 <;>
      first
        | exact absurd hid h3
        | simp only [ne_eq, Except.error.injEq, zeroDivMsg, assertMsgWW,
            mathDomainMsg] <;> decide
        | simp

theorem c7_vr_identity_witness :
    VR 2 5 = (ER 2 5 - 1) * (ER 2 5 - 2) / ((2 : ℚ) + 5 - 1) ∧
    VR 2 5 - (ER 2 5 - 1) * (ER 2 5 - 2) / ((2 : ℚ) + 5 - 1) < 1 / 1000 :=
  c7_vr_identity.1 2 5 (by decide) (by decide)

theorem ww_degenerate_error (l : List Char)
    (h : (∃ a, ∀ x ∈ l, x = a) ∨ l.length < 2) :
    wald_wolfowitz l = .error zeroDivMsg := by
  match l with
  | [] => rfl
  | s0 :: rest =>
    have hc : ∀ x ∈ s0 :: rest, x = s0 := by
      rcases h with ⟨a, ha⟩ | hlen
      · have hs0 : s0 = a := ha s0 (List.mem_cons_self _ _)
        intro x hx
        rw [ha x hx, hs0]
      · have hr : rest = [] := by
          cases rest with
          | nil => rfl
          | cons b t =>
            exfalso
            simp at hlen
            omega
        subst hr
        intro x hx
        simpa using hx
    have hm0 : wwM (s0 :: rest) s0 = 0 := by
      unfold wwM
      rw [List.countP_eq_zero]
      intro a ha
      simp [hc a ha]
    have hn : wwN (s0 :: rest) s0 = (s0 :: rest).length :=
      List.countP_eq_length.2 fun a ha => by simp [hc a ha]
    show wwCompute (s0 :: rest) s0 = .error zeroDivMsg
    cases rest with
    | nil =>
      unfold wwCompute
      rw [hn, hm0]
      norm_num
    | cons b t =>
      have hVR : VR (wwN (s0 :: b :: t) s0) (wwM (s0 :: b :: t) s0) = 0 := by
        rw [hm0]; simp [VR]
      have hER : ER (wwN (s0 :: b :: t) s0) (wwM (s0 :: b :: t) s0) = 1 := by
        rw [hm0]; simp [ER]
      have hO : wwO (wwN (s0 :: b :: t) s0) (wwM (s0 :: b :: t) s0) = 0 := by
        unfold wwO
        rw [hER]
        norm_num
      have hlen2 : (2 : ℚ) ≤ ((s0 :: b :: t).length : ℚ) := by
        have : 2 ≤ (s0 :: b :: t).length := by simp
        exact_mod_cast this
      unfold wwCompute
      rw [hVR, hO, hn, hm0]
      have h1 : ¬ ((((s0 :: b :: t).length : ℚ) + (0 : ℕ)) = 0) := by
        push_cast
        nlinarith
      have h2 : ¬ ((((s0 :: b :: t).length : ℚ) + (0 : ℕ)) ^ 2
          * (((s0 :: b :: t).length : ℚ) + (0 : ℕ) - 1) = 0) := by
        push_cast
        nlinarith
      rw [if_neg h1, if_neg h2, if_neg (by norm_num), if_neg (by norm_num),
        if_pos rfl]

/-- C6 amended: on every constant sequence and every sequence of length
less than 2, wald_wolfowitz fails with the ZeroDivisionError of an
unguarded Python float division (message "float division by zero") rather
than returning any result; the source contains no guard producing the
domain-error message the specification quotes. -/
theorem c6_ww_degenerate_fails (l : List Char)
    (h : (∃ a, ∀ x ∈ l, x = a) ∨ l.length < 2) :
    wald_wolfowitz l = .error zeroDivMsg :=
  ww_degenerate_error l h

theorem c6_ww_degenerate_fails_witness :
    wald_wolfowitz (['b', 'b', 'b'] : List Char) = .error zeroDivMsg :=
  c6_ww_degenerate_fails ['b', 'b', 'b'] (Or.inl ⟨'b', by decide⟩)

/-- C6 counterexample: on the constant length-2 sequence the code fails
with the ZeroDivisionError message, not with the domain-error message the
claim states. -/
theorem c6_counterexample :
    wald_wolfowitz (['a', 'a'] : List Char) = .error zeroDivMsg ∧
    zeroDivMsg ≠ specDomainMsg := by
  refine ⟨?_, by decide⟩
  exact ww_degenerate_error ['a', 'a'] (Or.inl ⟨'a', by decide⟩)

theorem ww_arith {n m : ℕ} (hn : 1 ≤ n) (hm : 1 ≤ m) (h3 : 3 ≤ n + m) :
    ¬ ((n : ℚ) + m = 0) ∧
    ¬ (((n : ℚ) + m) ^ 2 * ((n : ℚ) + m - 1) = 0) ∧
    0 < VR n m := by
  have hN : (1 : ℚ) ≤ (n : ℚ) := by exact_mod_cast hn
  have hM : (1 : ℚ) ≤ (m : ℚ) := by exact_mod_cast hm
  have hNM : (3 : ℚ) ≤ (n : ℚ) + m := by exact_mod_cast h3
  have hS : (0 : ℚ) < (n : ℚ) + m := by linarith
  have hS1 : (0 : ℚ) < (n : ℚ) + m - 1 := by linarith
  have hden : (0 : ℚ) < ((n : ℚ) + m) ^ 2 * ((n : ℚ) + m - 1) :=
    mul_pos (pow_pos hS 2) hS1
  have hnum : (0 : ℚ) < 2 * n * m * (2 * (n : ℚ) * m - n - m) := by
    have ha : (0 : ℚ) < 2 * (n : ℚ) * m := by nlinarith
    have hb : (0 : ℚ) < 2 * (n : ℚ) * m - n - m := by
      nlinarith [mul_nonneg (sub_nonneg.2 hN) (sub_nonneg.2 hM)]
    exact mul_pos ha hb
  exact ⟨ne_of_gt hS, ne_of_gt hden, div_pos hnum hden⟩

theorem wwCompute_ok (l : List Char) (s0 : Char)
    (hn : 1 ≤ wwN l s0) (hm : 1 ≤ wwM l s0) (hlen : 3 ≤ wwN l s0 + wwM l s0) :
    wwCompute l s0 = .ok
      { n_runs := specRunCount l,
        mean := ER (wwN l s0) (wwM l s0),
        sd := Real.sqrt ((VR (wwN l s0) (wwM l s0) : ℚ) : ℝ),
        z := ((specRunCount l : ℝ) - ((ER (wwN l s0) (wwM l s0) : ℚ) : ℝ))
            / Real.sqrt ((VR (wwN l s0) (wwM l s0) : ℚ) : ℝ),
        p := zprob (((specRunCount l : ℝ) - ((ER (wwN l s0) (wwM l s0) : ℚ) : ℝ))
            / Real.sqrt ((VR (wwN l s0) (wwM l s0) : ℚ) : ℝ)) } := by
  obtain ⟨h1, h2, hpos⟩ := ww_arith hn hm hlen
  have hass : VR (wwN l s0) (wwM l s0) - wwO (wwN l s0) (wwM l s0) < 1 / 1000 := by
    rw [VR_eq_wwO hn hm]
    norm_num
  unfold wwCompute
  rw [if_neg h1, if_neg h2, if_neg (not_not_intro hass), if_neg (not_lt.2 hpos.le),
    if_neg (ne_of_gt hpos), length_runLengths]

theorem zprob_lower_bound {z : ℝ} (hz : |z| ≤ 300 / 329) : 1 / 20 ≤ zprob z := by
  have hpi : (3.14 : ℝ) < Real.pi := Real.pi_gt_314
  have h2pi : (0 : ℝ) ≤ 2 * Real.pi := by nlinarith
  have hs := Real.sq_sqrt h2pi
  have hnn := Real.sqrt_nonneg (2 * Real.pi)
  have hsqpi : (5 / 2 : ℝ) ≤ Real.sqrt (2 * Real.pi) := by nlinarith
  have hspos : (0 : ℝ) < Real.sqrt (2 * Real.pi) := by linarith
  have hI : |∫ t in (0 : ℝ)..z, Real.exp (-(t ^ 2) / 2)| ≤ 300 / 329 := by
    have hb : ∀ x ∈ Set.uIoc (0 : ℝ) z, ‖Real.exp (-(x ^ 2) / 2)‖ ≤ 1 := by
      intro x _
      rw [Real.norm_eq_abs, abs_of_pos (Real.exp_pos _)]
      calc Real.exp (-(x ^ 2) / 2)
          ≤ Real.exp 0 := Real.exp_le_exp.2 (by nlinarith [sq_nonneg x])
        _ = 1 := Real.exp_zero
    calc |∫ t in (0 : ℝ)..z, Real.exp (-(t ^ 2) / 2)|
        ≤ 1 * |z - 0| := by
          have := intervalIntegral.norm_integral_le_of_norm_le_const hb
          rwa [Real.norm_eq_abs] at this
      _ = |z| := by rw [one_mul, sub_zero]
      _ ≤ 300 / 329 := hz
  have hIlow : -(300 / 329 : ℝ) ≤ ∫ t in (0 : ℝ)..z, Real.exp (-(t ^ 2) / 2) :=
    (abs_le.1 hI).1
  have hmono : -(300 / 329 : ℝ) / Real.sqrt (2 * Real.pi)
      ≤ (∫ t in (0 : ℝ)..z, Real.exp (-(t ^ 2) / 2)) / Real.sqrt (2 * Real.pi) := by
    gcongr
  have hupper : (300 / 329 : ℝ) / Real.sqrt (2 * Real.pi) ≤ (300 / 329) / (5 / 2) := by
    gcongr <;> norm_num
  unfold zprob
  rw [neg_div] at hmono
  have hfin : (300 / 329 : ℝ) / (5 / 2) = 120 / 329 := by norm_num
  rw [hfin] at hupper
  linarith

theorem z0_abs_bound :
    |((3 : ℝ) - 27 / 7) / Real.sqrt (130 / 147)| ≤ 300 / 329 := by
  have h0 : (0 : ℝ) ≤ 130 / 147 := by norm_num
  have hs := Real.sq_sqrt h0
  have hnn := Real.sqrt_nonneg ((130 : ℝ) / 147)
  have hlow : (47 / 50 : ℝ) ≤ Real.sqrt (130 / 147) := by nlinarith
  have hspos : (0 : ℝ) < Real.sqrt ((130 : ℝ) / 147) := by linarith
  rw [abs_div, abs_of_pos hspos]
  have habs : |(3 : ℝ) - 27 / 7| = 6 / 7 := by
    rw [abs_of_nonpos (by norm_num)]
    norm_num
  rw [habs, div_le_iff hspos]
  nlinarith

/-- C1 amended: for every sequence of length at least 3 with exactly two
distinct values, wald_wolfowitz returns n_runs equal to the number of
maximal runs, mean ER = 2nm/(n+m) + 1, sd the square root of
VR = 2nm(2nm-n-m)/((n+m)^2 (n+m-1)), z = (R - ER)/sd and p the one-sided
standard normal CDF at z; on the sequence 1000001 the run count is 3 and
the p-value is at least 0.05.  (The original claim asked for length at
least 2, which fails: see the counterexample with n = m = 1.) -/
theorem c1_ww_values :
    (∀ (l : List Char) (s0 : Char) (rest : List Char), l = s0 :: rest →
      l.toFinset.card = 2 → 3 ≤ l.length →
      wald_wolfowitz l = .ok
        { n_runs := specRunCount l,
          mean := ER (wwN l s0) (wwM l s0),
          sd := Real.sqrt ((VR (wwN l s0) (wwM l s0) : ℚ) : ℝ),
          z := ((specRunCount l : ℝ) - ((ER (wwN l s0) (wwM l s0) : ℚ) : ℝ))
              / Real.sqrt ((VR (wwN l s0) (wwM l s0) : ℚ) : ℝ),
          p := zprob (((specRunCount l : ℝ) - ((ER (wwN l s0) (wwM l s0) : ℚ) : ℝ))
              / Real.sqrt ((VR (wwN l s0) (wwM l s0) : ℚ) : ℝ)) }) ∧
    (∃ r : WWResult,
      wald_wolfowitz (['1', '0', '0', '0', '0', '0', '1'] : List Char) = .ok r ∧
      r.n_runs = 3 ∧ 1 / 20 ≤ r.p) := by
  constructor
  · intro l s0 rest hl hcard hlen
    subst hl
    have hmem : s0 ∈ (s0 :: rest).toFinset := by
      rw [List.mem_toFinset]
      exact List.mem_cons_self _ _
    obtain ⟨b, hb, hbne⟩ :=
      Finset.exists_ne_of_one_lt_card (by omega : 1 < (s0 :: rest).toFinset.card) s0
    have hm : 1 ≤ wwM (s0 :: rest) s0 := by
      apply List.countP_pos.2
      exact ⟨b, List.mem_toFinset.1 hb, by simp [hbne]⟩
    have hlen3 : 3 ≤ wwN (s0 :: rest) s0 + wwM (s0 :: rest) s0 := by
      rw [wwN_add_wwM]
      exact hlen
    exact wwCompute_ok (s0 :: rest) s0 (wwN_pos s0 rest) hm hlen3
  · have h := wwCompute_ok (['1', '0', '0', '0', '0', '0', '1'] : List Char) '1'
      (by decide) (by decide) (by decide)
    refine ⟨_, h, by decide, ?_⟩
    have hN : wwN (['1', '0', '0', '0', '0', '0', '1'] : List Char) '1' = 2 := by decide
    have hM : wwM (['1', '0', '0', '0', '0', '0', '1'] : List Char) '1' = 5 := by decide
    have hRC : specRunCount (['1', '0', '0', '0', '0', '0', '1'] : List Char) = 3 := by
      decide
    dsimp only
    rw [hN, hM, hRC]
    have hER : ER 2 5 = 27 / 7 := by
      unfold ER
      norm_num
    have hVR : VR 2 5 = 130 / 147 := by
      unfold VR
      norm_num
    rw [hER, hVR]
    have hcast : (((27 / 7 : ℚ)) : ℝ) = 27 / 7 := by norm_num
    have hcast2 : (((130 / 147 : ℚ)) : ℝ) = 130 / 147 := by norm_num
    rw [hcast, hcast2]
    apply zprob_lower_bound
    have h3 : ((3 : ℕ) : ℝ) = (3 : ℝ) := by norm_num
    rw [h3]
    exact z0_abs_bound

theorem c1_ww_values_witness :
    ∃ r : WWResult,
      wald_wolfowitz (['1', '0', '0'] : List Char) = .ok r := by
  refine ⟨_, c1_ww_values.1 (['1', '0', '0'] : List Char) '1' ['0', '0'] rfl
    (by decide) (by decide)⟩

/-- C1 counterexample: the length-2 sequence 10 contains exactly two
distinct values, yet wald_wolfowitz raises ZeroDivisionError (VR = 0, so
the Z division divides by zero) instead of returning a result. -/
theorem c1_counterexample :
    wald_wolfowitz (['1', '0'] : List Char) = .error zeroDivMsg := by
  have hN : wwN (['1', '0'] : List Char) '1' = 1 := by decide
  have hM : wwM (['1', '0'] : List Char) '1' = 1 := by decide
  have hVR : VR 1 1 = 0 := by
    unfold VR
    norm_num
  have hO : wwO 1 1 = 0 := by
    unfold wwO ER
    norm_num
  show wwCompute (['1', '0'] : List Char) '1' = .error zeroDivMsg
  unfold wwCompute
  rw [hN, hM, hVR, hO]
  norm_num

/-! ### Gap test -/

theorem indicator_sum (sequence : List α) (item : α) :
    (indicatorList sequence item).sum = sequence.countP fun s => decide (s = item) := by
  induction sequence with
  | nil => rfl
  | cons a t ih =>
    by_cases h : a = item <;>
      simp [indicatorList, List.countP_cons, h] at ih ⊢ <;> omega

theorem observedGaps_pos (sequence : List α) (item : α) :
    ∀ g ∈ observedGaps sequence item, 1 ≤ g := by
  intro g hg
  unfold observedGaps at hg
  rw [List.mem_map] at hg
  obtain ⟨q, hq, rfl⟩ := hg
  exact runLengths_snd_pos q (List.mem_filter.1 hq).1

theorem sum_eq_length_of_all_one {l : List ℕ} (h : ∀ v ∈ l, v = 1) :
    l.sum = l.length := by
  induction l with
  | nil => rfl
  | cons a t ih =>
    rw [List.sum_cons, List.length_cons, h a (List.mem_cons_self _ _),
      ih fun v hv => h v (List.mem_cons_of_mem _ hv)]
    omega

theorem observedGaps_ne_nil {sequence : List α} {item : α}
    (hlt : (indicatorList sequence item).sum < sequence.length) :
    observedGaps sequence item ≠ [] := by
  have h0 : (0 : ℕ) ∈ indicatorList sequence item := by
    by_contra h0
    have hall : ∀ v ∈ indicatorList sequence item, v = 1 := by
      intro v hv
      have hv' := hv
      unfold indicatorList at hv'
      rw [List.mem_map] at hv'
      obtain ⟨s, _, rfl⟩ := hv'
      by_cases h : s = item
      · simp [h]
      · exact absurd (by simpa [h] using hv) h0
    have := sum_eq_length_of_all_one hall
    rw [this] at hlt
    unfold indicatorList at hlt
    rw [List.length_map] at hlt
    exact lt_irrefl _ hlt
  obtain ⟨q, hq, hq1⟩ := exists_run_of_mem h0
  apply List.ne_nil_of_mem
  exact List.mem_map_of_mem Prod.snd (List.mem_filter.2 ⟨hq, by simp [hq1]⟩)

/-- C5: with the item resolved (explicitly given, or the first element of a
nonempty sequence), gap_test fails with the domain error message
"must have some values of item" exactly when the count of item occurrences
is 0 or the whole length, and otherwise returns a result carrying the
fields chi, p and item. -/
theorem c5_gap_test_precondition (pval : ℚ → ℕ → ℝ) (l : List Char)
    (it : Option Char) (item : Char) (hres : resolveItem l it = some item) :
    (gap_test pval l it = .error gapAssertMsg ↔
      l.countP (fun s => decide (s = item)) = 0 ∨
        l.countP (fun s => decide (s = item)) = l.length) ∧
    (0 < l.countP (fun s => decide (s = item)) →
      l.countP (fun s => decide (s = item)) < l.length →
      ∃ r : GapResult Char, gap_test pval l it = .ok r ∧ r.item = item) := by
  have hgt : gap_test pval l it = gapTestWithItem pval l item := by
    match it, l with
    | some a, l =>
      unfold resolveItem at hres
      cases hres
      rfl
    | none, s0 :: rest =>
      unfold resolveItem at hres
      cases hres
      rfl
    | none, [] => simp [resolveItem] at hres
  have hsum := indicator_sum l item
  have hle : l.countP (fun s => decide (s = item)) ≤ l.length :=
    List.countP_le_length _
  rw [hgt]
  constructor
  · constructor
    · intro herr
      by_contra hcnt
      push_neg at hcnt
      have hguard : 0 < (indicatorList l item).sum ∧
          (indicatorList l item).sum < l.length := by
        rw [hsum]
        omega
      rw [gapTestWithItem, if_pos hguard,
        if_neg (observedGaps_ne_nil hguard.2)] at herr
      exact Except.noConfusion herr
    · intro hcnt
      have hguard : ¬ (0 < (indicatorList l item).sum ∧
          (indicatorList l item).sum < l.length) := by
        rw [hsum]
        omega
      rw [gapTestWithItem, if_neg hguard]
  · intro h0 hlen
    have hguard : 0 < (indicatorList l item).sum ∧
        (indicatorList l item).sum < l.length := by
      rw [hsum]
      omega
    refine ⟨{ chi := gapChi l item,
              p := pval (gapChi l item) (ogapsHist l item).length,
              item := item }, ?_, rfl⟩
    rw [gapTestWithItem, if_pos hguard, if_neg (observedGaps_ne_nil hguard.2)]

theorem c5_gap_test_precondition_witness :
    (gap_test (fun _ _ => (0 : ℝ)) (['1', '0', '1'] : List Char) none
        = .error gapAssertMsg ↔
      (['1', '0', '1'] : List Char).countP (fun s => decide (s = '1')) = 0 ∨
        (['1', '0', '1'] : List Char).countP (fun s => decide (s = '1'))
          = (['1', '0', '1'] : List Char).length) ∧
    (0 < (['1', '0', '1'] : List Char).countP (fun s => decide (s = '1')) →
      (['1', '0', '1'] : List Char).countP (fun s => decide (s = '1'))
          < (['1', '0', '1'] : List Char).length →
      ∃ r : GapResult Char,
        gap_test (fun _ _ => (0 : ℝ)) (['1', '0', '1'] : List Char) none = .ok r ∧
        r.item = '1') :=
  c5_gap_test_precondition (fun _ _ => (0 : ℝ)) ['1', '0', '1'] none '1' (by decide)

theorem list_map_range_getD {β : Type*} (f : ℕ → β) (K : ℕ) (d : β) (hK : 0 < K) :
    ((List.range K).map f).getD 0 d = f 0 := by
  cases K with
  | zero => exact absurd hK (lt_irrefl 0)
  | succ k =>
    rw [List.range_succ_eq_map]
    rfl

/-- C10: whenever the gap_test precondition holds, every observed gap has
length at least 1, bucket 0 of the observed histogram is 0, and the
expected count it is compared against is l times the empirical item
frequency, which is strictly positive. -/
theorem c10_gap_bucket_zero (l : List Char) (item : Char)
    (h0 : 0 < l.countP (fun s => decide (s = item)))
    (hlen : l.countP (fun s => decide (s = item)) < l.length) :
    (∀ g ∈ observedGaps l item, 1 ≤ g) ∧
    (ogapsHist l item).getD 0 0 = 0 ∧
    (egapsList l item).getD 0 0
        = (l.length : ℚ) * ((l.countP (fun s => decide (s = item)) : ℚ) / l.length) ∧
    0 < (egapsList l item).getD 0 0 := by
  have hsum := indicator_sum l item
  have hK : 0 < max 10 ((observedGaps l item).foldl max 0) :=
    lt_of_lt_of_le (by norm_num) (le_max_left _ _)
  have hbucket0 : (ogapsHist l item).getD 0 0 = 0 := by
    unfold ogapsHist
    rw [list_map_range_getD _ _ _ hK]
    rw [List.count_eq_zero]
    intro hmem
    exact absurd (observedGaps_pos l item 0 hmem) (by omega)
  have hlenK : (ogapsHist l item).length = max 10 ((observedGaps l item).foldl max 0) := by
    unfold ogapsHist
    rw [List.length_map, List.length_range]
  have hexp : (egapsList l item).getD 0 0
      = (l.length : ℚ) * ((l.countP (fun s => decide (s = item)) : ℚ) / l.length) := by
    unfold egapsList
    rw [hlenK]
    obtain ⟨k, hk⟩ : ∃ k, max 10 ((observedGaps l item).foldl max 0) = k + 1 :=
      ⟨max 10 ((observedGaps l item).foldl max 0) - 1, by omega⟩
    rw [hk, List.range'_succ]
    rw [List.map_cons, List.getD_cons_zero, pow_one, hsum]
  refine ⟨observedGaps_pos l item, hbucket0, hexp, ?_⟩
  rw [hexp]
  have hl0 : (0 : ℚ) < (l.length : ℚ) := by
    have : 0 < l.length := lt_of_le_of_lt (Nat.zero_le _) hlen
    exact_mod_cast this
  have hc0 : (0 : ℚ) < (l.countP (fun s => decide (s = item)) : ℚ) := by
    exact_mod_cast h0
  exact mul_pos hl0 (div_pos hc0 hl0)

theorem c10_gap_bucket_zero_witness :
    (∀ g ∈ observedGaps (['1', '0', '1'] : List Char) '1', 1 ≤ g) ∧
    (ogapsHist (['1', '0', '1'] : List Char) '1').getD 0 0 = 0 ∧
    (egapsList (['1', '0', '1'] : List Char) '1').getD 0 0
        = (((['1', '0', '1'] : List Char).length : ℚ)
          * (((['1', '0', '1'] : List Char).countP (fun s => decide (s = '1')) : ℚ)
            / ((['1', '0', '1'] : List Char).length : ℚ))) ∧
    0 < (egapsList (['1', '0', '1'] : List Char) '1').getD 0 0 :=
  c10_gap_bucket_zero ['1', '0', '1'] '1' (by decide) (by decide)

/-- C3: evaluation of the code at the failing input 100000000001 with the
default item 1: there is one observed gap, of length 10, the histogram has
max(10, 10) = 10 buckets for the lengths 0 through 9, and the histogram
total is 0 - the maximal gap is counted in no bucket, contradicting the
claim that every observed gap is counted. -/
theorem c3_histogram_drops_max_gap :
    observedGaps
        (['1', '0', '0', '0', '0', '0', '0', '0', '0', '0', '0', '1'] : List Char) '1'
      = [10] ∧
    (ogapsHist
        (['1', '0', '0', '0', '0', '0', '0', '0', '0', '0', '0', '1'] : List Char)
        '1').length = 10 ∧
    (ogapsHist
        (['1', '0', '0', '0', '0', '0', '0', '0', '0', '0', '0', '1'] : List Char)
        '1').sum = 0 := by
  refine ⟨by decide, by decide, by decide⟩

theorem chiSquareStat_eq_sum (obs : List ℚ) :
    ∀ expcts : List ℚ, obs.length = expcts.length →
      chiSquareStat obs expcts
        = ∑ i ∈ Finset.range obs.length,
            (obs.getD i 0 - expcts.getD i 0) ^ 2 / expcts.getD i 0 := by
  induction obs with
  | nil =>
    intro e _
    simp [chiSquareStat]
  | cons o os ih =>
    intro e h
    cases e with
    | nil => simp at h
    | cons e0 es =>
      have hlen : os.length = es.length := by simpa using h
      have hstep : chiSquareStat (o :: os) (e0 :: es)
          = (o - e0) ^ 2 / e0 + chiSquareStat os es := by
        unfold chiSquareStat
        simp
      rw [hstep, ih es hlen, List.length_cons, Finset.sum_range_succ']
      simp only [List.getD_cons_succ, List.getD_cons_zero]
      ring

theorem getD_map_cast (hist : List ℕ) (i : ℕ) :
    (List.map (fun c : ℕ => (c : ℚ)) hist).getD i 0 = (hist.getD i 0 : ℚ) := by
  induction hist generalizing i with
  | nil => cases i <;> simp
  | cons a t ih =>
    cases i with
    | zero => rfl
    | succ k =>
      rw [List.map_cons, List.getD_cons_succ, List.getD_cons_succ]
      exact ih k

theorem ogapsHist_length (sequence : List α) (item : α) :
    (ogapsHist sequence item).length
      = max 10 ((observedGaps sequence item).foldl max 0) := by
  unfold ogapsHist
  rw [List.length_map, List.length_range]

theorem egapsList_getD (sequence : List α) (item : α) {i : ℕ}
    (hi : i < (ogapsHist sequence item).length) :
    (egapsList sequence item).getD i 0
      = (sequence.length : ℚ)
        * (((indicatorList sequence item).sum : ℚ) / (sequence.length : ℚ)) ^ (i + 1) := by
  unfold egapsList
  have hlen : i < ((List.range' 1 (ogapsHist sequence item).length).map fun ii =>
      (sequence.length : ℚ)
        * (((indicatorList sequence item).sum : ℚ) / (sequence.length : ℚ)) ^ ii).length := by
    simpa using hi
  rw [List.getD_eq_getElem?_getD, List.getElem?_eq_getElem hlen, Option.getD_some,
    List.getElem_map, List.getElem_range']
  norm_num [Nat.add_comm]

/-- C2: in every successful gap_test call the returned chi is the
chi-square statistic of the observed histogram against the expected counts
sequence_length * p^(i+1) for bucket index i (0-based; bucket i+1 in the
1-based numbering of the claim), with p the empirical item frequency; on
the doctest input 101010111101000 with item 0 the statistic is within
0.0001 of 11.0287. -/
theorem c2_gap_expected_counts :
    (∀ (pval : ℚ → ℕ → ℝ) (l : List Char) (item : Char),
      0 < (indicatorList l item).sum → (indicatorList l item).sum < l.length →
      ∃ r : GapResult Char, gap_test pval l (some item) = .ok r ∧
        r.chi = ∑ i ∈ Finset.range (ogapsHist l item).length,
          (((ogapsHist l item).getD i 0 : ℚ)
              - (l.length : ℚ) * (((indicatorList l item).sum : ℚ) / l.length) ^ (i + 1)) ^ 2
            / ((l.length : ℚ) * (((indicatorList l item).sum : ℚ) / l.length) ^ (i + 1))) ∧
    (∀ pval : ℚ → ℕ → ℝ,
      ∃ r : GapResult Char, gap_test pval gapSample (some '0') = .ok r ∧
        |r.chi - 110287 / 10000| ≤ 1 / 10000) := by
  constructor
  · intro pval l item h0 hlen
    refine ⟨{ chi := gapChi l item,
              p := pval (gapChi l item) (ogapsHist l item).length,
              item := item }, ?_, ?_⟩
    · show gapTestWithItem pval l item = _
      rw [gapTestWithItem, if_pos ⟨h0, hlen⟩, if_neg (observedGaps_ne_nil hlen)]
    · show gapChi l item = _
      unfold gapChi
      have hlens : (List.map (fun c : ℕ => (c : ℚ)) (ogapsHist l item)).length
          = (egapsList l item).length := by
        unfold egapsList
        rw [List.length_map, List.length_map, List.length_range']
      rw [chiSquareStat_eq_sum _ _ hlens, List.length_map]
      refine Finset.sum_congr rfl ?_
      intro i hi
      rw [Finset.mem_range] at hi
      rw [egapsList_getD l item hi, getD_map_cast]
  · intro pval
    refine ⟨{ chi := gapChi gapSample '0',
              p := pval (gapChi gapSample '0') (ogapsHist gapSample '0').length,
              item := '0' }, ?_, ?_⟩
    · show gapTestWithItem pval gapSample '0' = _
      rw [gapTestWithItem, if_pos ⟨by decide, by decide⟩, if_neg (by decide)]
    · show |gapChi gapSample '0' - 110287 / 10000| ≤ 1 / 10000
      have hhist : ogapsHist gapSample '0' = [0, 4, 0, 0, 1, 0, 0, 0, 0, 0] := by decide
      have hsum7 : (indicatorList gapSample '0').sum = 7 := by decide
      have hlen15 : (gapSample : List Char).length = 15 := by decide
      unfold gapChi egapsList
      rw [hhist, hsum7, hlen15]
      have hrange : List.range' 1 ([0, 4, 0, 0, 1, 0, 0, 0, 0, 0] : List ℕ).length
          = [1, 2, 3, 4, 5, 6, 7, 8, 9, 10] := by decide
      rw [hrange]
      norm_num [chiSquareStat, abs_le]

theorem c2_gap_expected_counts_witness :
    ∃ r : GapResult Char,
      gap_test (fun _ _ => (0 : ℝ)) (['1', '0', '0', '1'] : List Char) (some '1')
          = .ok r ∧
      r.chi = ∑ i ∈ Finset.range (ogapsHist (['1', '0', '0', '1'] : List Char) '1').length,
        (((ogapsHist (['1', '0', '0', '1'] : List Char) '1').getD i 0 : ℚ)
            - (((['1', '0', '0', '1'] : List Char).length : ℚ)
              * (((indicatorList (['1', '0', '0', '1'] : List Char) '1').sum : ℚ)
                / ((['1', '0', '0', '1'] : List Char).length : ℚ)) ^ (i + 1))) ^ 2
          / (((['1', '0', '0', '1'] : List Char).length : ℚ)
              * (((indicatorList (['1', '0', '0', '1'] : List Char) '1').sum : ℚ)
                / ((['1', '0', '0', '1'] : List Char).length : ℚ)) ^ (i + 1)) :=
  c2_gap_expected_counts.1 (fun _ _ => (0 : ℝ)) ['1', '0', '0', '1'] '1'
    (by decide) (by decide)

/-! ### Serial (digram) test -/

theorem specDigrams_eq (l : List α) (d : α) :
    specDigrams l d = pairwiseDigrams l := by
  induction l with
  | nil => rfl
  | cons a t ih =>
    cases t with
    | nil => rfl
    | cons b t2 =>
      unfold specDigrams pairwiseDigrams at ih ⊢
      have hlen : (a :: b :: t2).length - 1 = ((b :: t2).length - 1) + 1 := by
        simp
      rw [hlen, List.range_succ_eq_map, List.map_cons, List.map_map]
      have hmap : ((List.range ((b :: t2).length - 1)).map
            ((fun i => ((a :: b :: t2).getD (i + 1) d, (a :: b :: t2).getD i d))
              ∘ Nat.succ))
          = (List.range ((b :: t2).length - 1)).map
            (fun i => ((b :: t2).getD (i + 1) d, (b :: t2).getD i d)) := by
        refine List.map_congr_left ?_
        intro i _
        simp [Function.comp, List.getD_cons_succ]
      rw [hmap, ih]
      have hdrop : (a :: b :: t2).drop 1 = b :: t2 := rfl
      have hdl : (a :: b :: t2).dropLast = a :: (b :: t2).dropLast := rfl
      rw [hdrop, hdl, List.zip_cons_cons]
      rfl

theorem chiSquareStat_const_exp (obs : List ℚ) (c : ℚ) :
    chiSquareStat obs (obs.map fun _ => c) = (obs.map fun o => (o - c) ^ 2 / c).sum := by
  induction obs with
  | nil => rfl
  | cons o os ih =>
    unfold chiSquareStat at ih ⊢
    simp only [List.map_cons, List.zip_cons_cons, List.sum_cons]
    rw [ih]

/-- C4: serial_test counts the digrams (sequence[i+1], sequence[i]), takes
the expected count of every digram class to be the mean of the observed
counts, and returns the chi-square statistic over the distinct digrams; on
the doctest input 101010101111000 the statistic is exactly 10/7, which is
within 0.0001 of 1.4286. -/
theorem c4_serial_test :
    (∀ (pval : ℚ → ℕ → ℝ) (l : List Char) (d : Char), 2 ≤ l.length →
      ∃ r : SerialResult, serial_test pval l = .ok r ∧
        r.chi = ((specDigrams l d).dedup.map fun k =>
          (((specDigrams l d).count k : ℚ) - serialMean l) ^ 2 / serialMean l).sum) ∧
    (∀ pval : ℚ → ℕ → ℝ,
      ∃ r : SerialResult, serial_test pval serialSample = .ok r ∧
        r.chi = 10 / 7 ∧ |(10 / 7 : ℚ) - 14286 / 10000| ≤ 1 / 10000) := by
  constructor
  · intro pval l d _
    refine ⟨_, rfl, ?_⟩
    show serialChi l = _
    rw [specDigrams_eq l d]
    unfold serialChi
    rw [chiSquareStat_const_exp]
    unfold serialObs digramCounts
    rw [List.map_map, List.map_map]
    rfl
  · intro pval
    have hd : digramCounts serialSample
        = [(('1', '0'), 4), (('1', '1'), 3), (('0', '1'), 5), (('0', '0'), 2)] := by
      decide
    have hobs : serialObs serialSample = [4, 3, 5, 2] := by
      unfold serialObs
      rw [hd]
      norm_num
    have hmean : serialMean serialSample = 7 / 2 := by
      unfold serialMean
      rw [hobs]
      norm_num
    have hchi : serialChi serialSample = 10 / 7 := by
      unfold serialChi
      rw [hobs, hmean]
      norm_num [chiSquareStat]
    exact ⟨_, rfl, hchi, by rw [abs_le]; norm_num⟩

theorem c4_serial_test_witness :
    ∃ r : SerialResult,
      serial_test (fun _ _ => (0 : ℝ)) (['0', '1'] : List Char) = .ok r := by
  obtain ⟨r, hr, _⟩ :=
    c4_serial_test.1 (fun _ _ => (0 : ℝ)) (['0', '1'] : List Char) '0' (by norm_num)
  exact ⟨r, hr⟩

theorem dedup_replicate (a : α) : ∀ k : ℕ, (List.replicate (k + 1) a).dedup = [a] := by
  intro k
  induction k with
  | zero => rfl
  | succ k ih =>
    rw [List.replicate_succ, List.dedup_cons_of_mem (by simp)]
    exact ih

/-- C8 amended: on a constant sequence of length at least 2 (a single
distinct digram) serial_test does not fail in any way: it silently returns
chi = 0 with the p-value the external chisquare collaborator produces for
one class (zero degrees of freedom). -/
theorem c8_serial_degenerate_silent (pval : ℚ → ℕ → ℝ) (a : Char) (n : ℕ)
    (h : 2 ≤ n) :
    serial_test pval (List.replicate n a) = .ok { chi := 0, p := pval 0 1 } := by
  obtain ⟨m, rfl⟩ : ∃ m, n = m + 2 := ⟨n - 2, by omega⟩
  have hpw : pairwiseDigrams (List.replicate (m + 2) a)
      = List.replicate (m + 1) (a, a) := by
    unfold pairwiseDigrams
    rw [List.dropLast_replicate]
    have hdrop : (List.replicate (m + 2) a).drop 1 = List.replicate (m + 1) a := by
      rw [List.replicate_succ]
      rfl
    rw [hdrop]
    have h21 : m + 2 - 1 = m + 1 := rfl
    rw [h21, List.zip_replicate']
  have hd : digramCounts (List.replicate (m + 2) a) = [((a, a), m + 1)] := by
    unfold digramCounts
    rw [hpw, dedup_replicate, List.map_cons, List.map_nil, List.count_replicate_self]
  have hobs : serialObs (List.replicate (m + 2) a) = [((m + 1 : ℕ) : ℚ)] := by
    unfold serialObs
    rw [hd]
    rfl
  have hmean : serialMean (List.replicate (m + 2) a) = ((m + 1 : ℕ) : ℚ) := by
    unfold serialMean
    rw [hobs]
    simp
  have hchi : serialChi (List.replicate (m + 2) a) = 0 := by
    unfold serialChi
    rw [hobs, hmean]
    simp [chiSquareStat]
  have hlen1 : (serialObs (List.replicate (m + 2) a)).length = 1 := by
    rw [hobs]
    rfl
  unfold serial_test
  rw [hchi, hlen1]

theorem c8_serial_degenerate_silent_witness :
    serial_test (fun _ _ => (0 : ℝ)) (List.replicate 4 'b')
      = .ok { chi := 0, p := 0 } :=
  c8_serial_degenerate_silent (fun _ _ => (0 : ℝ)) 'b' 4 (by norm_num)

/-- C8 counterexample: serial_test on the constant sequence aaaa (one
distinct digram, zero degrees of freedom) returns a normal ok result with
chi = 0 rather than any distinguishable failure. -/
theorem c8_counterexample :
    serial_test (fun _ _ => (0 : ℝ)) (['a', 'a', 'a', 'a'] : List Char)
      = .ok { chi := 0, p := 0 } := by
  have hd : digramCounts (['a', 'a', 'a', 'a'] : List Char) = [(('a', 'a'), 3)] := by
    decide
  have hobs : serialObs (['a', 'a', 'a', 'a'] : List Char) = [3] := by
    unfold serialObs
    rw [hd]
    norm_num
  have hmean : serialMean (['a', 'a', 'a', 'a'] : List Char) = 3 := by
    unfold serialMean
    rw [hobs]
    norm_num
  have hchi : serialChi (['a', 'a', 'a', 'a'] : List Char) = 0 := by
    unfold serialChi
    rw [hobs, hmean]
    norm_num [chiSquareStat]
  have hlen : (serialObs (['a', 'a', 'a', 'a'] : List Char)).length = 1 := by
    rw [hobs]
    rfl
  unfold serial_test
  rw [hchi, hlen]

/-! ### Autocorrelation test -/

theorem centered_prod_sum (x : List ℤ) :
    ∀ (y : List ℤ), x.length = y.length → ∀ a b : ℚ,
      ((x.zip y).map fun v => ((v.1 : ℚ) - a) * ((v.2 : ℚ) - b)).sum
        = ((x.zip y).map fun v => (v.1 : ℚ) * v.2).sum
          - a * (List.map (fun v : ℤ => (v : ℚ)) y).sum
          - b * (List.map (fun v : ℤ => (v : ℚ)) x).sum
          + x.length * (a * b) := by
  induction x with
  | nil =>
    intro y hxy a b
    cases y with
    | nil => simp
    | cons c d => simp at hxy
  | cons x0 xs ih =>
    intro y hxy a b
    cases y with
    | nil => simp at hxy
    | cons y0 ys =>
      have h' : xs.length = ys.length := by simpa using hxy
      simp only [List.zip_cons_cons, List.map_cons, List.sum_cons, List.length_cons]
      rw [ih ys h' a b]
      push_cast
      ring

theorem centered_sq_sum (x : List ℤ) (a : ℚ) :
    (List.map (fun v : ℤ => ((v : ℚ) - a) ^ 2) x).sum
      = (List.map (fun v : ℤ => ((v : ℚ) ^ 2)) x).sum
        - 2 * a * (List.map (fun v : ℤ => (v : ℚ)) x).sum + x.length * a ^ 2 := by
  induction x with
  | nil => simp
  | cons x0 xs ih =>
    simp only [List.map_cons, List.sum_cons, List.length_cons]
    rw [ih]
    push_cast
    ring

theorem lag_length (l : List ℤ) : (l.drop 1).length = l.dropLast.length := by
  cases l with
  | nil => rfl
  | cons a t => simp

theorem cov_eq (x y : List ℤ) (h : x.length = y.length) (hpos : 1 ≤ x.length) :
    ((x.zip y).map fun v => ((v.1 : ℚ) - colMean x) * ((v.2 : ℚ) - colMean y)).sum
      = ((x.zip y).map fun v => (v.1 : ℚ) * v.2).sum
        - (List.map (fun v : ℤ => (v : ℚ)) x).sum
          * (List.map (fun v : ℤ => (v : ℚ)) y).sum / x.length := by
  rw [centered_prod_sum x y h (colMean x) (colMean y)]
  unfold colMean
  rw [← h]
  have hn : ((x.length : ℚ)) ≠ 0 := by
    have : 0 < x.length := hpos
    positivity
  field_simp
  ring

theorem var_eq (x : List ℤ) (hpos : 1 ≤ x.length) :
    varSum x
      = ((x.length : ℚ) * (List.map (fun v : ℤ => ((v : ℚ) ^ 2)) x).sum
          - ((List.map (fun v : ℤ => (v : ℚ)) x).sum) ^ 2) / x.length := by
  unfold varSum
  rw [centered_sq_sum x (colMean x)]
  unfold colMean
  have hn : ((x.length : ℚ)) ≠ 0 := by
    have : 0 < x.length := hpos
    positivity
  field_simp
  ring

theorem varSum_nonneg (x : List ℤ) : 0 ≤ varSum x := by
  apply List.sum_nonneg
  intro q hq
  rw [List.mem_map] at hq
  obtain ⟨v, _, rfl⟩ := hq
  positivity

theorem var_numerator_nonneg (x : List ℤ) (hpos : 1 ≤ x.length) :
    0 ≤ (x.length : ℚ) * (List.map (fun v : ℤ => ((v : ℚ) ^ 2)) x).sum
      - ((List.map (fun v : ℤ => (v : ℚ)) x).sum) ^ 2 := by
  have hn : (0 : ℚ) < (x.length : ℚ) := by exact_mod_cast hpos
  have h := varSum_nonneg x
  rw [var_eq x hpos, le_div_iff hn, zero_mul] at h
  exact h

theorem pearson_algebra (nn sxy sx sy A B : ℝ) (hn : 0 < nn)
    (hA : 0 ≤ A) (hB : 0 ≤ B) :
    (sxy - sx * sy / nn) / Real.sqrt ((A / nn) * (B / nn))
      = (nn * sxy - sx * sy) / Real.sqrt (A * B) := by
  have hAB : 0 ≤ A * B := mul_nonneg hA hB
  have hs : Real.sqrt ((A / nn) * (B / nn)) = Real.sqrt (A * B) / nn := by
    rw [div_mul_div_comm, Real.sqrt_div hAB, Real.sqrt_mul_self hn.le]
  rw [hs, div_div_eq_mul_div]
  have hnum : (sxy - sx * sy / nn) * nn = nn * sxy - sx * sy := by
    field_simp
    ring
  rw [hnum]

theorem corrcoef_eq_specPearson (l : List ℤ) (h2 : 2 ≤ l.length) :
    corrcoefLag l = specPearson (l.drop 1) l.dropLast := by
  have hxy : (l.drop 1).length = l.dropLast.length := lag_length l
  have hpos : 1 ≤ (l.drop 1).length := by
    rw [List.length_drop]
    omega
  have hposy : 1 ≤ l.dropLast.length := by
    rw [← hxy]
    exact hpos
  have hnQ : (0 : ℚ) < ((l.drop 1).length : ℚ) := by exact_mod_cast hpos
  have hnR : (0 : ℝ) < (((l.drop 1).length : ℕ) : ℝ) := by exact_mod_cast hpos
  have hA := var_numerator_nonneg (l.drop 1) hpos
  have hB := var_numerator_nonneg l.dropLast hposy
  unfold corrcoefLag specPearson
  unfold covSum
  rw [cov_eq (l.drop 1) l.dropLast hxy hpos, var_eq (l.drop 1) hpos,
    var_eq l.dropLast hposy, ← hxy]
  have hA' : (0 : ℝ) ≤ (((l.drop 1).length : ℚ)
      * (List.map (fun v : ℤ => ((v : ℚ) ^ 2)) (l.drop 1)).sum
      - ((List.map (fun v : ℤ => (v : ℚ)) (l.drop 1)).sum) ^ 2 : ℚ) := by
    exact_mod_cast hA
  have hB' : (0 : ℝ) ≤ (((l.drop 1).length : ℚ)
      * (List.map (fun v : ℤ => ((v : ℚ) ^ 2)) l.dropLast).sum
      - ((List.map (fun v : ℤ => (v : ℚ)) l.dropLast).sum) ^ 2 : ℚ) := by
    rw [← hxy] at hB
    exact_mod_cast hB
  push_cast
  push_cast at hA' hB'
  exact pearson_algebra _ _ _ _ _ _ (by exact_mod_cast hpos) hA' hB'

/-- C9: for every 0/1 sequence of length at least 3 the auto_correlation
field equals the Pearson correlation coefficient of the lag columns
sequence[1:] and sequence[:-1]; at the doctest input it is exactly the
rational 129/154 = 0.83766..., hence within 0.000001 of it. -/
theorem c9_auto_correlation :
    (∀ (linreg : List ℤ → List ℤ → ℝ × ℝ × ℝ × ℝ × ℝ) (l : List ℤ),
      (∀ v ∈ l, v = 0 ∨ v = 1) → 3 ≤ l.length →
      (auto_correlation linreg l).auto_correlation
        = specPearson (l.drop 1) l.dropLast) ∧
    (∀ linreg : List ℤ → List ℤ → ℝ × ℝ × ℝ × ℝ × ℝ,
      (auto_correlation linreg acSample).auto_correlation = (129 : ℝ) / 154) := by
  constructor
  · intro linreg l _ h3
    show corrcoefLag l = _
    exact corrcoef_eq_specPearson l (by omega)
  · intro linreg
    show corrcoefLag acSample = _
    have hx : acSample.drop 1
        = [0, 0, 0, 0, 0, 0, 1, 1, 1, 1, 1, 1, 1, 1, 1, 1, 1, 0, 0, 0, 0, 0, 0, 0, 0] := by
      decide
    have hy : acSample.dropLast
        = [0, 0, 0, 0, 0, 0, 0, 1, 1, 1, 1, 1, 1, 1, 1, 1, 1, 1, 0, 0, 0, 0, 0, 0, 0] := by
      decide
    have hmx : colMean
        ([0, 0, 0, 0, 0, 0, 1, 1, 1, 1, 1, 1, 1, 1, 1, 1, 1, 0, 0, 0, 0, 0, 0, 0, 0] :
          List ℤ) = 11 / 25 := by
      norm_num [colMean]
    have hmy : colMean
        ([0, 0, 0, 0, 0, 0, 0, 1, 1, 1, 1, 1, 1, 1, 1, 1, 1, 1, 0, 0, 0, 0, 0, 0, 0] :
          List ℤ) = 11 / 25 := by
      norm_num [colMean]
    have hcov : covSum acSample = 129 / 25 := by
      unfold covSum
      rw [hx, hy, hmx, hmy]
      norm_num
    have hvx : varSum
        ([0, 0, 0, 0, 0, 0, 1, 1, 1, 1, 1, 1, 1, 1, 1, 1, 1, 0, 0, 0, 0, 0, 0, 0, 0] :
          List ℤ) = 154 / 25 := by
      unfold varSum
      rw [hmx]
      norm_num
    have hvy : varSum
        ([0, 0, 0, 0, 0, 0, 0, 1, 1, 1, 1, 1, 1, 1, 1, 1, 1, 1, 0, 0, 0, 0, 0, 0, 0] :
          List ℤ) = 154 / 25 := by
      unfold varSum
      rw [hmy]
      norm_num
    unfold corrcoefLag
    rw [hx, hy, hcov, hvx, hvy]
    have hprod : ((154 / 25 * (154 / 25) : ℚ) : ℝ) = (154 / 25 : ℝ) * (154 / 25) := by
      push_cast
      norm_num
    rw [hprod, Real.sqrt_mul_self (by norm_num : (0 : ℝ) ≤ 154 / 25)]
    push_cast
    norm_num

theorem c9_auto_correlation_witness :
    (auto_correlation (fun _ _ => (0, 0, 0, 0, 0)) ([0, 1, 0] : List ℤ)).auto_correlation
      = specPearson (([0, 1, 0] : List ℤ).drop 1) ([0, 1, 0] : List ℤ).dropLast :=
  c9_auto_correlation.1 (fun _ _ => (0, 0, 0, 0, 0)) ([0, 1, 0] : List ℤ)
    (by decide) (by norm_num)

end Skidmarks
